import Mathlib

/-!
Shallow embedding of `ifcdot.py` (function `write_dot` and its helper
`cluster`), together with proofs of the specification claims.

Modelling conventions:
* An IFC entity is modelled by its numeric id (`.id()` in ifcopenshell),
  its class name (`.is_a()` with no argument) and the list of taxonomy
  names `t` for which `.is_a(t)` returns true.
* The nine relationship classes handled by the code are pairwise disjoint
  subtypes of IfcRelationship in the IFC schema, so a relationship record
  is a sum type with one constructor per kind (plus `other` for every
  unrecognised kind); the attribute reads of the Python code become the
  constructor fields.
* Each `dot.write` of the Python code becomes one `DotStatement`.  A
  statement records the registry key(s) whose label it prints next to
  the printed label text itself, so that claims about "node N appears in
  a statement" can be stated at the id level.
* The Python dict `ifc_objects` is modelled as a function
  `Nat → Option String` updated in the same loop that emits the node
  statements.
* A raised exception (KeyError on a registry miss inside `cluster`, or
  exceeding the interpreter recursion limit) is modelled by `none`; the
  recursion limit itself is the model field `recLimit`.
-/

namespace IfcDot

/-- An IFC entity: id, class name, and the set of taxonomy names it is_a. -/
structure IfcObject where
  oid : Nat
  className : String
  superTypes : List String
deriving DecidableEq, Repr

/-- `o.is_a(t)` of ifcopenshell. -/
def IfcObject.isA (o : IfcObject) (t : String) : Bool :=
  o.superTypes.contains t

/-- The virtual-element check `is_a("IfcVirtualElement")`. -/
def isVirtual (o : IfcObject) : Bool :=
  o.isA "IfcVirtualElement"

/-- The label registered for an object: `"#" + str(id) + "=" + str(is_a())`. -/
def dotLabel (o : IfcObject) : String :=
  "#" ++ toString o.oid ++ "=" ++ o.className

/-- The fill-colour if/elif chain of `write_dot` (lines 72-87). -/
def fillColor (o : IfcObject) : String :=
  if o.isA "IfcGroup" then "#ff99ff"
  else if o.isA "IfcSpatialElement" then "#ff99cc"
  else if o.isA "IfcElementAssembly" then "#ccff99"
  else if o.isA "IfcOpeningElement" then "#cc99ff"
  else if o.isA "IfcDoor" || o.isA "IfcWindow" then "#99ccff"
  else if o.isA "IfcElement" then "#9999ff"
  else if o.isA "IfcStructuralItem" then "#99ff99"
  else "#ff9999"

/-- A relationship record.  In the IFC schema the nine classes tested by the
code are pairwise disjoint, so a record matches at most one of the is_a tests
of lines 104-138; the constructor fields are the attributes the code reads
for that kind.  `other` stands for every relationship of an unrecognised
kind (it matches none of the nine tests, so the code leaves
`relating_object = None` and `related_objects = []` for it). -/
inductive IfcRelationship where
  | aggregates (relatingObject : IfcObject) (relatedObjects : List IfcObject)
  | nests (relatingObject : IfcObject) (relatedObjects : List IfcObject)
  | assignsToGroup (relatingGroup : IfcObject) (relatedObjects : List IfcObject)
  | connectsElements (relatingElement relatedElement : IfcObject)
  | connectsStructuralMember (relatingStructuralMember relatedStructuralConnection : IfcObject)
  | containedInSpatialStructure (relatingStructure : IfcObject) (relatedElements : List IfcObject)
  | fillsElement (relatingOpeningElement relatedBuildingElement : IfcObject)
  | voidsElement (relatingBuildingElement relatedOpeningElement : IfcObject)
  | spaceBoundary (relatingSpace relatedBuildingElement : IfcObject)
  | other
deriving DecidableEq, Repr

/-- The decomposition performed by lines 99-138 of `write_dot`: for each
recognised kind, the relating object, the related objects, the weight and
the style; `none` when no kind matches (then the loop over
`related_objects` is empty and the relationship contributes nothing). -/
def decompose : IfcRelationship → Option (IfcObject × List IfcObject × String × String)
  | .aggregates r rs => some (r, rs, "9", "solid")
  | .nests r rs => some (r, rs, "9", "solid")
  | .assignsToGroup g rs => some (g, rs, "1", "solid")
  | .connectsElements a b => some (a, [b], "9", "dashed")
  | .connectsStructuralMember a b => some (a, [b], "1", "solid")
  | .containedInSpatialStructure s es => some (s, es, "1", "solid")
  | .fillsElement o b => some (o, [b], "9", "solid")
  | .voidsElement b o => some (b, [o], "9", "solid")
  | .spaceBoundary s b => some (s, [b], "9", "dotted")
  | .other => none

/-- One line written to the .dot file.  The `Nat` arguments are the registry
keys whose labels the line prints (ghost information determining the text). -/
inductive DotStatement where
  | headerLine (text : String)
  | node (nid : Nat) (lab : String) (fill : String)
  | edge (relatingId relatedId : Nat) (relatingLab relatedLab : String)
      (weight style : String)
  | subgraphOpen (nid : Nat)
  | clusterAttrLine
  | clusterNode (nid : Nat) (lab : String)
  | closeBrace
deriving DecidableEq, Repr

/-- Does a statement print the label registered under key `k`? -/
def DotStatement.mentions : DotStatement → Nat → Bool
  | .node i _ _, k => i = k
  | .edge a b _ _ _ _, k => a = k || b = k
  | .subgraphOpen i, k => i = k
  | .clusterNode i _, k => i = k
  | _, _ => false

/-- State of the node-collection loop: the registry dict `ifc_objects`
and the node statements written so far. -/
structure NodeState where
  reg : Nat → Option String
  stmts : List DotStatement

/-- One iteration of the loop over `by_type("IfcObject")` (lines 61-95):
skip virtual elements; register the label; skip the styled statement when
`interest` is non-empty and does not contain the id; otherwise emit it. -/
def nodeStep (interest : Finset Nat) (st : NodeState) (o : IfcObject) : NodeState :=
  if isVirtual o then st
  else
    let lab := dotLabel o
    let reg1 : Nat → Option String := fun k => if k = o.oid then some lab else st.reg k
    if ¬ interest = ∅ ∧ o.oid ∉ interest then { reg := reg1, stmts := st.stmts }
    else { reg := reg1, stmts := st.stmts ++ [DotStatement.node o.oid lab (fillColor o)] }

def nodesGo (interest : Finset Nat) (st : NodeState) : List IfcObject → NodeState
  | [] => st
  | o :: rest => nodesGo interest (nodeStep interest st o) rest

def initNodeState : NodeState :=
  { reg := fun _ => none, stmts := [] }

/-- The whole node-collection phase. -/
def nodePhase (objs : List IfcObject) (interest : Finset Nat) : NodeState :=
  nodesGo interest initNodeState objs

/-- State of the relationship loop: edge statements written so far and the
`new_interest` set (initialised to `interest.copy()` on line 55). -/
structure EdgeState where
  stmts : List DotStatement
  newInterest : Finset Nat

/-- Lines 140-186: one `(relating_object, related_object)` pair.  The outer
guard requires both ids to be registry keys; then, when `interest` is
non-empty, the three `continue` branches of the interest filter run, and a
pair that falls through (or an empty `interest`) gets an edge statement. -/
def processPair (reg : Nat → Option String) (interest : Finset Nat)
    (relating related : IfcObject) (weight style : String) (st : EdgeState) : EdgeState :=
  match reg relating.oid, reg related.oid with
  | some relatingLab, some relatedLab =>
    if ¬ interest = ∅ then
      if relating.oid ∉ interest ∧ related.oid ∉ interest then st
      else if relating.oid ∈ interest ∧ related.oid ∉ interest then
        { st with newInterest := insert related.oid st.newInterest }
      else if related.oid ∈ interest ∧ relating.oid ∉ interest then
        { st with newInterest := insert relating.oid st.newInterest }
      else
        { st with stmts := st.stmts ++
            [DotStatement.edge relating.oid related.oid relatingLab relatedLab weight style] }
    else
      { st with stmts := st.stmts ++
          [DotStatement.edge relating.oid related.oid relatingLab relatedLab weight style] }
  | _, _ => st

def relatedGo (reg : Nat → Option String) (interest : Finset Nat)
    (relating : IfcObject) (weight style : String) (st : EdgeState) :
    List IfcObject → EdgeState
  | [] => st
  | b :: rest =>
    relatedGo reg interest relating weight style
      (processPair reg interest relating b weight style st) rest

/-- One iteration of the loop over `by_type("IfcRelationship")`. -/
def processRel (reg : Nat → Option String) (interest : Finset Nat)
    (st : EdgeState) (r : IfcRelationship) : EdgeState :=
  match decompose r with
  | none => st
  | some (relating, relateds, weight, style) =>
    relatedGo reg interest relating weight style st relateds

def relsGo (reg : Nat → Option String) (interest : Finset Nat) (st : EdgeState) :
    List IfcRelationship → EdgeState
  | [] => st
  | r :: rest => relsGo reg interest (processRel reg interest st r) rest

/-- The model handed to `write_dot`: the results of the three `by_type`
queries, the external `get_decomposition` collaborator, and the interpreter
recursion limit bounding the depth of `cluster`. -/
structure Model where
  objects : List IfcObject
  rels : List IfcRelationship
  sites : List IfcObject
  decomp : IfcObject → List IfcObject
  recLimit : Nat

/-- The finished registry dict (its contents do not depend on `interest`,
see `nodesGo_reg_interest_indep`). -/
def registry (m : Model) : Nat → Option String :=
  (nodePhase m.objects ∅).reg

/-- The relationship-loop phase of `write_dot`, starting from
`new_interest = interest.copy()` and no edge statements. -/
def edgePhase (m : Model) (interest : Finset Nat) : EdgeState :=
  relsGo (registry m) interest { stmts := [], newInterest := interest } m.rels

/-- The `new_interest` set returned by `write_dot`. -/
def next_interest (m : Model) (interest : Finset Nat) : Finset Nat :=
  (edgePhase m interest).newInterest

/-- The loop over `get_decomposition` children inside `cluster` (lines
200-206): skip virtual and interest-pruned children, print each remaining
child's label (a registry miss is a KeyError, i.e. `none`) and recurse into
it; `rec` is the recursive call at one level deeper. -/
def childrenGoAux (reg : Nat → Option String) (interest : Finset Nat)
    (rec : IfcObject → Option (List DotStatement)) :
    List IfcObject → Option (List DotStatement)
  | [] => some []
  | c :: rest =>
    if isVirtual c then childrenGoAux reg interest rec rest
    else if ¬ interest = ∅ ∧ c.oid ∉ interest then childrenGoAux reg interest rec rest
    else
      match reg c.oid with
      | none => none
      | some clab =>
        match rec c with
        | none => none
        | some sub =>
          match childrenGoAux reg interest rec rest with
          | none => none
          | some more => some (DotStatement.clusterNode c.oid clab :: (sub ++ more))

/-- One invocation of the recursive `cluster` function (lines 189-208).
A virtual node or a node pruned by the interest check emits nothing and
does not recurse; a node without decomposition children emits nothing.
Otherwise the subgraph block is emitted; a registry miss (Python KeyError)
is `none`, as is an exhausted recursion limit (`recurse = none`). -/
def clusterStep (decomp : IfcObject → List IfcObject) (reg : Nat → Option String)
    (interest : Finset Nat) (recurse : Option (IfcObject → Option (List DotStatement)))
    (o : IfcObject) : Option (List DotStatement) :=
  if isVirtual o then some []
  else if ¬ interest = ∅ ∧ o.oid ∉ interest then some []
  else
    let children := decomp o
    if children.isEmpty then some []
    else
      match reg o.oid with
      | none => none
      | some lab =>
        match recurse with
        | none => none
        | some rec =>
          match childrenGoAux reg interest rec children with
          | none => none
          | some kidStmts =>
            some ([DotStatement.subgraphOpen o.oid, DotStatement.clusterAttrLine,
                   DotStatement.clusterNode o.oid lab] ++ kidStmts ++
                  [DotStatement.closeBrace])

/-- The `cluster` recursion, bounded by the interpreter recursion limit. -/
def clusterGo (decomp : IfcObject → List IfcObject) (reg : Nat → Option String)
    (interest : Finset Nat) : Nat → IfcObject → Option (List DotStatement)
  | 0 => clusterStep decomp reg interest none
  | fuel + 1 => clusterStep decomp reg interest (some (clusterGo decomp reg interest fuel))

/-- The loop over `by_type("IfcSite")` (lines 184-185). -/
def sitesGo (decomp : IfcObject → List IfcObject) (reg : Nat → Option String)
    (interest : Finset Nat) (fuel : Nat) : List IfcObject → Option (List DotStatement)
  | [] => some []
  | s :: rest =>
    match clusterGo decomp reg interest fuel s with
    | none => none
    | some cs =>
      match sitesGo decomp reg interest fuel rest with
      | none => none
      | some more => some (cs ++ more)

/-- The two preamble lines written on lines 58-59. -/
def headerStmts : List DotStatement :=
  [DotStatement.headerLine "strict graph G \x7b",
   DotStatement.headerLine "graph [overlap=false,splines=true,rankdir=LR];"]

/-- The whole of `write_dot`: node phase, relationship phase, cluster phase,
closing brace; returns the written statements and `new_interest`.  `none`
models an uncaught exception inside the cluster phase (then nothing is
returned to the caller). -/
def write_dot (m : Model) (interest : Finset Nat) :
    Option (List DotStatement × Finset Nat) :=
  let np := nodePhase m.objects interest
  let ep := relsGo np.reg interest { stmts := [], newInterest := interest } m.rels
  match sitesGo m.decomp np.reg interest m.recLimit m.sites with
  | none => none
  | some clusterStmts =>
    some (headerStmts ++ np.stmts ++ ep.stmts ++ clusterStmts ++ [DotStatement.closeBrace],
          ep.newInterest)

/-! ### Node-phase lemmas -/

theorem nodeStep_reg (I : Finset Nat) (st : NodeState) (o : IfcObject) :
    (nodeStep I st o).reg =
      if isVirtual o then st.reg
      else fun k => if k = o.oid then some (dotLabel o) else st.reg k := by
  unfold nodeStep
  split
  · simp [*]
  · split <;> simp [*]

theorem nodeStep_stmts (I : Finset Nat) (st : NodeState) (o : IfcObject) :
    (nodeStep I st o).stmts =
      if isVirtual o then st.stmts
      else if ¬ I = ∅ ∧ o.oid ∉ I then st.stmts
      else st.stmts ++ [DotStatement.node o.oid (dotLabel o) (fillColor o)] := by
  unfold nodeStep
  split
  · simp [*]
  · split <;> simp_all

theorem nodesGo_reg_indep (I I' : Finset Nat) :
    ∀ (objs : List IfcObject) (st st' : NodeState), st.reg = st'.reg →
      (nodesGo I st objs).reg = (nodesGo I' st' objs).reg := by
  intro objs
  induction objs with
  | nil => intro st st' h; exact h
  | cons o rest ih =>
    intro st st' h
    apply ih
    rw [nodeStep_reg, nodeStep_reg, h]

theorem nodePhase_reg_eq_registry (m : Model) (I : Finset Nat) :
    (nodePhase m.objects I).reg = registry m :=
  nodesGo_reg_indep I ∅ m.objects initNodeState initNodeState rfl

theorem nodesGo_reg_isSome (I : Finset Nat) (objs : List IfcObject) :
    ∀ (st : NodeState) (k : Nat),
      (((nodesGo I st objs).reg k).isSome = true ↔
        (st.reg k).isSome = true ∨
          ∃ o ∈ objs, isVirtual o = false ∧ o.oid = k) := by
  induction objs with
  | nil => simp [nodesGo]
  | cons o rest ih =>
    intro st k
    show (((nodesGo I (nodeStep I st o) rest).reg k).isSome = true ↔ _)
    rw [ih, nodeStep_reg]
    by_cases hv : isVirtual o <;> by_cases hk : k = o.oid <;>
      (simp [hv, hk]; try aesop)

theorem nodesGo_reg_some (I : Finset Nat) (objs : List IfcObject) :
    ∀ (st : NodeState) (k : Nat) (l : String),
      (nodesGo I st objs).reg k = some l →
        st.reg k = some l ∨ ∃ o ∈ objs, isVirtual o = false ∧ o.oid = k ∧ l = dotLabel o := by
  induction objs with
  | nil => simp [nodesGo]
  | cons o rest ih =>
    intro st k l h
    replace h := ih (nodeStep I st o) k l h
    rw [nodeStep_reg] at h
    by_cases hv : isVirtual o <;> by_cases hk : k = o.oid <;>
      simp [hv, hk] at h <;> aesop

theorem nodesGo_stmts_mem (I : Finset Nat) (objs : List IfcObject) :
    ∀ (st : NodeState) (s : DotStatement),
      (s ∈ (nodesGo I st objs).stmts ↔
        s ∈ st.stmts ∨
          ∃ o ∈ objs, isVirtual o = false ∧ (I = ∅ ∨ o.oid ∈ I) ∧
            s = DotStatement.node o.oid (dotLabel o) (fillColor o)) := by
  induction objs with
  | nil => simp [nodesGo]
  | cons o rest ih =>
    intro st s
    show (s ∈ (nodesGo I (nodeStep I st o) rest).stmts ↔ _)
    rw [ih, nodeStep_stmts]
    by_cases hv : isVirtual o
    · simp only [if_pos hv]
      constructor
      · rintro (h | h)
        · exact Or.inl h
        · exact Or.inr (by aesop)
      · rintro (h | h)
        · exact Or.inl h
        · refine Or.inr ?_
          obtain ⟨o', ho', h1, h2, h3⟩ := h
          rcases List.mem_cons.mp ho' with rfl | hmem
          · rw [hv] at h1; cases h1
          · exact ⟨o', hmem, h1, h2, h3⟩
    · by_cases hI : I = ∅
      · have hcond : ¬ (¬ I = ∅ ∧ o.oid ∉ I) := by simp [hI]
        simp only [if_neg hv, if_neg hcond]
        rw [List.mem_append]
        aesop
      · by_cases ho : o.oid ∈ I
        · have : ¬ (¬ I = ∅ ∧ o.oid ∉ I) := by simp [hI, ho]
          simp only [if_neg hv, if_neg this]
          rw [List.mem_append]
          aesop
        · have : (¬ I = ∅ ∧ o.oid ∉ I) := ⟨hI, ho⟩
          simp only [if_neg hv, if_pos this]
          constructor
          · rintro (h | h)
            · exact Or.inl h
            · exact Or.inr (by aesop)
          · rintro (h | h)
            · exact Or.inl h
            · refine Or.inr ?_
              obtain ⟨o', ho', h1, h2, h3⟩ := h
              rcases List.mem_cons.mp ho' with rfl | hmem
              · rcases h2 with h2 | h2
                · exact absurd h2 hI
                · exact absurd h2 ho
              · exact ⟨o', hmem, h1, h2, h3⟩

/-! ### Edge-phase lemmas -/

theorem processPair_stmts_mem (reg : Nat → Option String) (I : Finset Nat)
    (relating b : IfcObject) (w sty : String) (st : EdgeState) (s : DotStatement) :
    (s ∈ (processPair reg I relating b w sty st).stmts ↔
      s ∈ st.stmts ∨
        ∃ la lb, reg relating.oid = some la ∧ reg b.oid = some lb ∧
          (I = ∅ ∨ (relating.oid ∈ I ∧ b.oid ∈ I)) ∧
          s = DotStatement.edge relating.oid b.oid la lb w sty) := by
  unfold processPair
  cases hra : reg relating.oid with
  | none => simp [hra]
  | some la =>
    cases hrb : reg b.oid with
    | none => simp [hrb]
    | some lb =>
      by_cases hI : I = ∅
      · simp [hI]
        try aesop
      · by_cases ha : relating.oid ∈ I <;> by_cases hb : b.oid ∈ I <;>
          (simp [hI, ha, hb]; try aesop)

theorem processPair_newInterest_mem (reg : Nat → Option String) (I : Finset Nat)
    (relating b : IfcObject) (w sty : String) (st : EdgeState) (x : Nat) :
    (x ∈ (processPair reg I relating b w sty st).newInterest ↔
      x ∈ st.newInterest ∨
        ((reg relating.oid).isSome = true ∧ (reg b.oid).isSome = true ∧ ¬ I = ∅ ∧
          ((x = b.oid ∧ relating.oid ∈ I ∧ b.oid ∉ I) ∨
           (x = relating.oid ∧ b.oid ∈ I ∧ relating.oid ∉ I)))) := by
  unfold processPair
  cases hra : reg relating.oid with
  | none => simp
  | some la =>
    cases hrb : reg b.oid with
    | none => simp
    | some lb =>
      by_cases hI : I = ∅
      · simp [hI]
      · by_cases ha : relating.oid ∈ I <;> by_cases hb : b.oid ∈ I <;>
          (simp [hI, ha, hb, Finset.mem_insert]; try aesop)

theorem relatedGo_stmts_mem (reg : Nat → Option String) (I : Finset Nat)
    (relating : IfcObject) (w sty : String) (bs : List IfcObject) :
    ∀ (st : EdgeState) (s : DotStatement),
      (s ∈ (relatedGo reg I relating w sty st bs).stmts ↔
        s ∈ st.stmts ∨
          ∃ b ∈ bs, ∃ la lb, reg relating.oid = some la ∧ reg b.oid = some lb ∧
            (I = ∅ ∨ (relating.oid ∈ I ∧ b.oid ∈ I)) ∧
            s = DotStatement.edge relating.oid b.oid la lb w sty) := by
  induction bs with
  | nil => simp [relatedGo]
  | cons b rest ih =>
    intro st s
    show (s ∈ (relatedGo reg I relating w sty (processPair reg I relating b w sty st) rest).stmts ↔ _)
    rw [ih, processPair_stmts_mem]
    constructor
    · rintro ((h | h) | h)
      · exact Or.inl h
      · exact Or.inr (by aesop)
      · exact Or.inr (by aesop)
    · rintro (h | ⟨b', hb', h⟩)
      · exact Or.inl (Or.inl h)
      · rcases List.mem_cons.mp hb' with rfl | hmem
        · exact Or.inl (Or.inr h)
        · exact Or.inr ⟨b', hmem, h⟩

theorem relatedGo_newInterest_mem (reg : Nat → Option String) (I : Finset Nat)
    (relating : IfcObject) (w sty : String) (bs : List IfcObject) :
    ∀ (st : EdgeState) (x : Nat),
      (x ∈ (relatedGo reg I relating w sty st bs).newInterest ↔
        x ∈ st.newInterest ∨
          ∃ b ∈ bs, (reg relating.oid).isSome = true ∧ (reg b.oid).isSome = true ∧ ¬ I = ∅ ∧
            ((x = b.oid ∧ relating.oid ∈ I ∧ b.oid ∉ I) ∨
             (x = relating.oid ∧ b.oid ∈ I ∧ relating.oid ∉ I))) := by
  induction bs with
  | nil => simp [relatedGo]
  | cons b rest ih =>
    intro st x
    show (x ∈ (relatedGo reg I relating w sty (processPair reg I relating b w sty st) rest).newInterest ↔ _)
    rw [ih, processPair_newInterest_mem]
    constructor
    · rintro ((h | h) | h)
      · exact Or.inl h
      · exact Or.inr (by aesop)
      · exact Or.inr (by aesop)
    · rintro (h | ⟨b', hb', h⟩)
      · exact Or.inl (Or.inl h)
      · rcases List.mem_cons.mp hb' with rfl | hmem
        · exact Or.inl (Or.inr h)
        · exact Or.inr ⟨b', hmem, h⟩

theorem processRel_stmts_mem (reg : Nat → Option String) (I : Finset Nat)
    (st : EdgeState) (r : IfcRelationship) (s : DotStatement) :
    (s ∈ (processRel reg I st r).stmts ↔
      s ∈ st.stmts ∨
        ∃ relating relateds w sty, decompose r = some (relating, relateds, w, sty) ∧
          ∃ b ∈ relateds, ∃ la lb, reg relating.oid = some la ∧ reg b.oid = some lb ∧
            (I = ∅ ∨ (relating.oid ∈ I ∧ b.oid ∈ I)) ∧
            s = DotStatement.edge relating.oid b.oid la lb w sty) := by
  unfold processRel
  cases hd : decompose r with
  | none => simp [hd]
  | some q =>
    obtain ⟨relating, relateds, w, sty⟩ := q
    rw [relatedGo_stmts_mem]
    constructor
    · rintro (h | h)
      · exact Or.inl h
      · exact Or.inr ⟨relating, relateds, w, sty, rfl, h⟩
    · rintro (h | ⟨r1, r2, w1, s1, heq, h⟩)
      · exact Or.inl h
      · injection heq with h1
        cases h1
        exact Or.inr h

theorem processRel_newInterest_mem (reg : Nat → Option String) (I : Finset Nat)
    (st : EdgeState) (r : IfcRelationship) (x : Nat) :
    (x ∈ (processRel reg I st r).newInterest ↔
      x ∈ st.newInterest ∨
        ∃ relating relateds w sty, decompose r = some (relating, relateds, w, sty) ∧
          ∃ b ∈ relateds, (reg relating.oid).isSome = true ∧ (reg b.oid).isSome = true ∧ ¬ I = ∅ ∧
            ((x = b.oid ∧ relating.oid ∈ I ∧ b.oid ∉ I) ∨
             (x = relating.oid ∧ b.oid ∈ I ∧ relating.oid ∉ I))) := by
  unfold processRel
  cases hd : decompose r with
  | none => simp [hd]
  | some q =>
    obtain ⟨relating, relateds, w, sty⟩ := q
    rw [relatedGo_newInterest_mem]
    constructor
    · rintro (h | h)
      · exact Or.inl h
      · exact Or.inr ⟨relating, relateds, w, sty, rfl, h⟩
    · rintro (h | ⟨r1, r2, w1, s1, heq, h⟩)
      · exact Or.inl h
      · injection heq with h1
        cases h1
        exact Or.inr h

theorem relsGo_stmts_mem (reg : Nat → Option String) (I : Finset Nat)
    (rels : List IfcRelationship) :
    ∀ (st : EdgeState) (s : DotStatement),
      (s ∈ (relsGo reg I st rels).stmts ↔
        s ∈ st.stmts ∨
          ∃ r ∈ rels, ∃ relating relateds w sty, decompose r = some (relating, relateds, w, sty) ∧
            ∃ b ∈ relateds, ∃ la lb, reg relating.oid = some la ∧ reg b.oid = some lb ∧
              (I = ∅ ∨ (relating.oid ∈ I ∧ b.oid ∈ I)) ∧
              s = DotStatement.edge relating.oid b.oid la lb w sty) := by
  induction rels with
  | nil => simp [relsGo]
  | cons r rest ih =>
    intro st s
    show (s ∈ (relsGo reg I (processRel reg I st r) rest).stmts ↔ _)
    rw [ih, processRel_stmts_mem]
    constructor
    · rintro ((h | h) | h)
      · exact Or.inl h
      · exact Or.inr ⟨r, List.mem_cons_self r rest, h⟩
      · obtain ⟨r', hr', h⟩ := h
        exact Or.inr ⟨r', List.mem_cons_of_mem r hr', h⟩
    · rintro (h | ⟨r', hr', h⟩)
      · exact Or.inl (Or.inl h)
      · rcases List.mem_cons.mp hr' with rfl | hmem
        · exact Or.inl (Or.inr h)
        · exact Or.inr ⟨r', hmem, h⟩

theorem relsGo_newInterest_mem (reg : Nat → Option String) (I : Finset Nat)
    (rels : List IfcRelationship) :
    ∀ (st : EdgeState) (x : Nat),
      (x ∈ (relsGo reg I st rels).newInterest ↔
        x ∈ st.newInterest ∨
          ∃ r ∈ rels, ∃ relating relateds w sty, decompose r = some (relating, relateds, w, sty) ∧
            ∃ b ∈ relateds, (reg relating.oid).isSome = true ∧ (reg b.oid).isSome = true ∧ ¬ I = ∅ ∧
              ((x = b.oid ∧ relating.oid ∈ I ∧ b.oid ∉ I) ∨
               (x = relating.oid ∧ b.oid ∈ I ∧ relating.oid ∉ I))) := by
  induction rels with
  | nil => simp [relsGo]
  | cons r rest ih =>
    intro st x
    show (x ∈ (relsGo reg I (processRel reg I st r) rest).newInterest ↔ _)
    rw [ih, processRel_newInterest_mem]
    constructor
    · rintro ((h | h) | h)
      · exact Or.inl h
      · exact Or.inr ⟨r, List.mem_cons_self r rest, h⟩
      · obtain ⟨r', hr', h⟩ := h
        exact Or.inr ⟨r', List.mem_cons_of_mem r hr', h⟩
    · rintro (h | ⟨r', hr', h⟩)
      · exact Or.inl (Or.inl h)
      · rcases List.mem_cons.mp hr' with rfl | hmem
        · exact Or.inl (Or.inr h)
        · exact Or.inr ⟨r', hmem, h⟩

/-! ### Bridging `write_dot` to its three phases -/

theorem write_dot_some_iff (m : Model) (I : Finset Nat) (out : List DotStatement × Finset Nat) :
    write_dot m I = some out ↔
      ∃ cs, sitesGo m.decomp (registry m) I m.recLimit m.sites = some cs ∧
        out = (headerStmts ++ (nodePhase m.objects I).stmts ++ (edgePhase m I).stmts ++
                 cs ++ [DotStatement.closeBrace],
               next_interest m I) := by
  unfold write_dot
  show ((match sitesGo m.decomp (nodePhase m.objects I).reg I m.recLimit m.sites with
    | none => none
    | some clusterStmts =>
      some (headerStmts ++ (nodePhase m.objects I).stmts ++
              (relsGo (nodePhase m.objects I).reg I { stmts := [], newInterest := I } m.rels).stmts ++
              clusterStmts ++ [DotStatement.closeBrace],
            (relsGo (nodePhase m.objects I).reg I { stmts := [], newInterest := I } m.rels).newInterest)) = some out ↔ _)
  rw [nodePhase_reg_eq_registry]
  cases hs : sitesGo m.decomp (registry m) I m.recLimit m.sites with
  | none => simp
  | some cs =>
    simp only [Option.some.injEq]
    constructor
    · intro h
      exact ⟨cs, rfl, h.symm⟩
    · rintro ⟨cs', hcs', rfl⟩
      cases hcs'
      rfl

/-! ### Interest-set lemmas -/

theorem next_interest_supset (m : Model) (I : Finset Nat) : I ⊆ next_interest m I := by
  intro x hx
  unfold next_interest edgePhase
  rw [relsGo_newInterest_mem]
  exact Or.inl hx

/-- An edge candidate at the id level: some relationship decomposes to a
`(relating, related)` pair with these ids and both ids are registry keys. -/
def IsCand (m : Model) (a b : Nat) : Prop :=
  (registry m a).isSome = true ∧ (registry m b).isSome = true ∧
    ∃ r ∈ m.rels, ∃ relating relateds w sty,
      decompose r = some (relating, relateds, w, sty) ∧ relating.oid = a ∧
        ∃ bo ∈ relateds, bo.oid = b

theorem next_interest_mem (m : Model) (I : Finset Nat) (x : Nat) :
    x ∈ next_interest m I ↔
      x ∈ I ∨ (¬ I = ∅ ∧ ∃ a b, IsCand m a b ∧
        ((x = b ∧ a ∈ I ∧ b ∉ I) ∨ (x = a ∧ b ∈ I ∧ a ∉ I))) := by
  unfold next_interest edgePhase
  rw [relsGo_newInterest_mem]
  constructor
  · rintro (h | ⟨r, hr, relating, relateds, w, sty, hd, b, hb, h1, h2, hne, hcase⟩)
    · exact Or.inl h
    · refine Or.inr ⟨hne, relating.oid, b.oid,
        ⟨h1, h2, r, hr, relating, relateds, w, sty, hd, rfl, b, hb, rfl⟩, hcase⟩
  · rintro (h | ⟨hne, a, b, ⟨h1, h2, r, hr, relating, relateds, w, sty, hd, ha, bo, hbo, hb⟩, hcase⟩)
    · exact Or.inl h
    · subst ha; subst hb
      exact Or.inr ⟨r, hr, relating, relateds, w, sty, hd, bo, hbo, h1, h2, hne, hcase⟩

/-- The set of registry keys: ids of the non-virtual IfcObjects. -/
def registryKeys (m : Model) : Finset Nat :=
  ((m.objects.filter (fun o => !isVirtual o)).map IfcObject.oid).toFinset

theorem mem_registryKeys (m : Model) (k : Nat) :
    k ∈ registryKeys m ↔ (registry m k).isSome = true := by
  unfold registryKeys registry nodePhase
  rw [nodesGo_reg_isSome]
  simp [initNodeState, List.mem_filter]
  constructor
  · rintro ⟨o, ⟨ho, hv⟩, hk⟩
    exact ⟨o, ho, by simpa using hv, hk⟩
  · rintro ⟨o, ho, hv, hk⟩
    exact ⟨o, ⟨ho, by simpa using hv⟩, hk⟩

theorem next_interest_sub (m : Model) (I : Finset Nat) :
    next_interest m I ⊆ I ∪ registryKeys m := by
  intro x hx
  rw [next_interest_mem] at hx
  rcases hx with h | ⟨_, a, b, hcand, hcase⟩
  · exact Finset.mem_union_left _ h
  · rcases hcase with ⟨rfl, _⟩ | ⟨rfl, _⟩
    · exact Finset.mem_union_right _ ((mem_registryKeys m _).mpr hcand.2.1)
    · exact Finset.mem_union_right _ ((mem_registryKeys m _).mpr hcand.1)

/-- The caller's iterate-until-fixpoint loop: keep replacing `interest` by
`write_dot`'s returned next-interest until it stops growing. -/
def expandInterest (m : Model) : Finset Nat → Nat → Finset Nat
  | I, 0 => I
  | I, fuel + 1 => if next_interest m I = I then I else expandInterest m (next_interest m I) fuel

theorem expandInterest_supset (m : Model) :
    ∀ (fuel : Nat) (I : Finset Nat), I ⊆ expandInterest m I fuel := by
  intro fuel
  induction fuel with
  | zero => intro I; exact Finset.Subset.refl I
  | succ fuel ih =>
    intro I
    show I ⊆ (if next_interest m I = I then I else expandInterest m (next_interest m I) fuel)
    split
    · exact Finset.Subset.refl I
    · exact (next_interest_supset m I).trans (ih (next_interest m I))

theorem expandInterest_fix (m : Model) :
    ∀ (fuel : Nat) (I : Finset Nat), (registryKeys m \ I).card ≤ fuel →
      next_interest m (expandInterest m I fuel) = expandInterest m I fuel := by
  intro fuel
  induction fuel with
  | zero =>
    intro I hcard
    have hempty : registryKeys m \ I = ∅ := Finset.card_eq_zero.mp (Nat.le_zero.mp hcard)
    have hsub : registryKeys m ⊆ I := by
      intro x hx
      by_contra hxI
      exact (Finset.not_mem_empty x) (hempty ▸ Finset.mem_sdiff.mpr ⟨hx, hxI⟩)
    show next_interest m I = I
    apply Finset.Subset.antisymm
    · intro x hx
      rcases Finset.mem_union.mp (next_interest_sub m I hx) with h | h
      · exact h
      · exact hsub h
    · exact next_interest_supset m I
  | succ fuel ih =>
    intro I hcard
    show next_interest m (if next_interest m I = I then I else expandInterest m (next_interest m I) fuel) =
      (if next_interest m I = I then I else expandInterest m (next_interest m I) fuel)
    by_cases hfix : next_interest m I = I
    · simp [hfix]
    · simp only [if_neg hfix]
      apply ih
      have hss : I ⊂ next_interest m I :=
        Finset.ssubset_iff_subset_ne.mpr ⟨next_interest_supset m I, fun h => hfix h.symm⟩
      obtain ⟨x, hxF, hxI⟩ := Finset.exists_of_ssubset hss
      have hxreg : x ∈ registryKeys m := by
        rcases Finset.mem_union.mp (next_interest_sub m I hxF) with h | h
        · exact absurd h hxI
        · exact h
      have hproper : registryKeys m \ next_interest m I ⊂ registryKeys m \ I := by
        constructor
        · intro y hy
          rw [Finset.mem_sdiff] at hy ⊢
          exact ⟨hy.1, fun hyI => hy.2 (next_interest_supset m I hyI)⟩
        · intro hsub'
          have hx1 : x ∈ registryKeys m \ I := Finset.mem_sdiff.mpr ⟨hxreg, hxI⟩
          have hx2 := hsub' hx1
          rw [Finset.mem_sdiff] at hx2
          exact hx2.2 hxF
      have := Finset.card_lt_card hproper
      omega

/-! ### Weak connectivity over the registered edge candidates -/

/-- `x` lies in a weakly-connected component of the candidate edge graph
touched by the source set `src` (a registered source id counts as reachable
from itself). -/
inductive Reaches (m : Model) (src : Finset Nat) : Nat → Prop where
  | base (x : Nat) : x ∈ src → (registry m x).isSome = true → Reaches m src x
  | fwd (a b : Nat) : Reaches m src a → IsCand m a b → Reaches m src b
  | bwd (a b : Nat) : Reaches m src b → IsCand m a b → Reaches m src a

theorem reaches_registered (m : Model) (src : Finset Nat) (x : Nat)
    (h : Reaches m src x) : (registry m x).isSome = true := by
  induction h with
  | base x hx hreg => exact hreg
  | fwd a b _ hcand _ => exact hcand.2.1
  | bwd a b _ hcand _ => exact hcand.1

theorem next_interest_closure (m : Model) (I0 I : Finset Nat)
    (h : ∀ x ∈ I, x ∈ I0 ∨ Reaches m I0 x) :
    ∀ x ∈ next_interest m I, x ∈ I0 ∨ Reaches m I0 x := by
  intro x hx
  rw [next_interest_mem] at hx
  rcases hx with hxI | ⟨hne, a, b, hcand, hcase⟩
  · exact h x hxI
  · have reach_of : ∀ y ∈ I, (registry m y).isSome = true → Reaches m I0 y := by
      intro y hy hyreg
      rcases h y hy with h0 | hr
      · exact Reaches.base y h0 hyreg
      · exact hr
    rcases hcase with ⟨heq, haI, _⟩ | ⟨heq, hbI, _⟩
    · rw [heq]
      exact Or.inr (Reaches.fwd a b (reach_of a haI hcand.1) hcand)
    · rw [heq]
      exact Or.inr (Reaches.bwd a b (reach_of b hbI hcand.2.1) hcand)

theorem expandInterest_closure (m : Model) (I0 : Finset Nat) :
    ∀ (fuel : Nat) (I : Finset Nat), (∀ x ∈ I, x ∈ I0 ∨ Reaches m I0 x) →
      ∀ x ∈ expandInterest m I fuel, x ∈ I0 ∨ Reaches m I0 x := by
  intro fuel
  induction fuel with
  | zero => intro I h; exact h
  | succ fuel ih =>
    intro I h x hx
    rw [show expandInterest m I (fuel + 1) =
      (if next_interest m I = I then I else expandInterest m (next_interest m I) fuel) from rfl] at hx
    split at hx
    · exact h x hx
    · exact ih (next_interest m I) (next_interest_closure m I0 I h) x hx

theorem reaches_mem_fixpoint (m : Model) (I0 J : Finset Nat)
    (hfix : next_interest m J = J) (hsub : I0 ⊆ J) (hne : ¬ J = ∅) :
    ∀ x, Reaches m I0 x → x ∈ J := by
  intro x h
  induction h with
  | base x hx _ => exact hsub hx
  | fwd a b _ hcand ih =>
    by_cases hb : b ∈ J
    · exact hb
    · have : b ∈ next_interest m J := by
        rw [next_interest_mem]
        exact Or.inr ⟨hne, a, b, hcand, Or.inl ⟨rfl, ih, hb⟩⟩
      rwa [hfix] at this
  | bwd a b _ hcand ih =>
    by_cases ha : a ∈ J
    · exact ha
    · have : a ∈ next_interest m J := by
        rw [next_interest_mem]
        exact Or.inr ⟨hne, a, b, hcand, Or.inr ⟨rfl, ih, ha⟩⟩
      rwa [hfix] at this

/-! ### Cluster-phase lemmas -/

/-- Shape invariant of every statement written by `cluster`: it is one of
the four cluster statement forms, and any registry key it prints a label
for is actually present in the registry. -/
def clusterStmtOk (reg : Nat → Option String) : DotStatement → Prop
  | .subgraphOpen i => (reg i).isSome = true
  | .clusterNode i _ => (reg i).isSome = true
  | .clusterAttrLine => True
  | .closeBrace => True
  | _ => False

theorem childrenGoAux_ok (reg : Nat → Option String) (I : Finset Nat)
    (rec : IfcObject → Option (List DotStatement))
    (hrec : ∀ (o : IfcObject) (l : List DotStatement), rec o = some l →
      ∀ s ∈ l, clusterStmtOk reg s) :
    ∀ (cs : List IfcObject) (l : List DotStatement), childrenGoAux reg I rec cs = some l →
      ∀ s ∈ l, clusterStmtOk reg s := by
  intro cs
  induction cs with
  | nil =>
    intro l h
    injection h with h
    subst h
    intro s hs
    cases hs
  | cons c rest ih =>
    intro l h
    rw [childrenGoAux] at h
    by_cases hv : isVirtual c
    · rw [if_pos hv] at h
      exact ih l h
    · rw [if_neg hv] at h
      by_cases hp : ¬ I = ∅ ∧ c.oid ∉ I
      · rw [if_pos hp] at h
        exact ih l h
      · rw [if_neg hp] at h
        cases hc : reg c.oid with
        | none => rw [hc] at h; cases h
        | some clab =>
          rw [hc] at h
          cases hg : rec c with
          | none => rw [hg] at h; cases h
          | some sub =>
            rw [hg] at h
            cases hk : childrenGoAux reg I rec rest with
            | none => rw [hk] at h; cases h
            | some more =>
              rw [hk] at h
              injection h with h
              subst h
              intro s hs
              rcases List.mem_cons.mp hs with rfl | hs'
              · show (reg c.oid).isSome = true
                rw [hc]; rfl
              · rcases List.mem_append.mp hs' with h1 | h2
                · exact hrec c sub hg s h1
                · exact ih more hk s h2

theorem clusterStep_ok (d : IfcObject → List IfcObject) (reg : Nat → Option String)
    (I : Finset Nat) (recurse : Option (IfcObject → Option (List DotStatement)))
    (hrec : ∀ rec, recurse = some rec →
      ∀ (o : IfcObject) (l : List DotStatement), rec o = some l →
        ∀ s ∈ l, clusterStmtOk reg s) :
    ∀ (o : IfcObject) (l : List DotStatement), clusterStep d reg I recurse o = some l →
      ∀ s ∈ l, clusterStmtOk reg s := by
  intro o l h
  unfold clusterStep at h
  by_cases hv : isVirtual o
  · rw [if_pos hv] at h
    injection h with h; subst h; intro s hs; cases hs
  · rw [if_neg hv] at h
    by_cases hp : ¬ I = ∅ ∧ o.oid ∉ I
    · rw [if_pos hp] at h
      injection h with h; subst h; intro s hs; cases hs
    · rw [if_neg hp] at h
      by_cases he : (d o).isEmpty
      · rw [if_pos he] at h
        injection h with h; subst h; intro s hs; cases hs
      · rw [if_neg he] at h
        cases hr : reg o.oid with
        | none => rw [hr] at h; cases h
        | some lab =>
          rw [hr] at h
          cases recurse with
          | none => cases h
          | some rec =>
            dsimp only at h
            cases hk : childrenGoAux reg I rec (d o) with
            | none => rw [hk] at h; cases h
            | some kids =>
              rw [hk] at h
              injection h with h
              subst h
              intro s hs
              simp only [List.mem_append, List.mem_cons, List.mem_singleton,
                List.not_mem_nil, or_false] at hs
              rcases hs with ((rfl | rfl | rfl) | hs'') | rfl
              · show (reg o.oid).isSome = true
                rw [hr]; rfl
              · trivial
              · show (reg o.oid).isSome = true
                rw [hr]; rfl
              · exact childrenGoAux_ok reg I rec (hrec rec rfl) (d o) kids hk s hs''
              · trivial

theorem clusterGo_ok (d : IfcObject → List IfcObject) (reg : Nat → Option String)
    (I : Finset Nat) :
    ∀ (fuel : Nat) (o : IfcObject) (l : List DotStatement), clusterGo d reg I fuel o = some l →
      ∀ s ∈ l, clusterStmtOk reg s := by
  intro fuel
  induction fuel with
  | zero =>
    exact clusterStep_ok d reg I none (fun rec h => by cases h)
  | succ fuel ih =>
    exact clusterStep_ok d reg I (some (clusterGo d reg I fuel))
      (fun rec h => by injection h with h; subst h; exact ih)

theorem sitesGo_ok (d : IfcObject → List IfcObject) (reg : Nat → Option String)
    (I : Finset Nat) (fuel : Nat) :
    ∀ (sites : List IfcObject) (l : List DotStatement), sitesGo d reg I fuel sites = some l →
      ∀ s ∈ l, clusterStmtOk reg s := by
  intro sites
  induction sites with
  | nil =>
    intro l h
    injection h with h; subst h; intro s hs; cases hs
  | cons site rest ih =>
    intro l h
    simp only [sitesGo] at h
    cases hg : clusterGo d reg I fuel site with
    | none => rw [hg] at h; cases h
    | some cs =>
      rw [hg] at h
      cases hk : sitesGo d reg I fuel rest with
      | none => rw [hk] at h; cases h
      | some more =>
        rw [hk] at h
        injection h with h
        subst h
        intro s hs
        rcases List.mem_append.mp hs with h1 | h2
        · exact clusterGo_ok d reg I fuel site cs hg s h1
        · exact ih more hk s h2

/-- A cluster root pruned by a non-empty interest set is a complete no-op
(`some []` even with zero recursion fuel, so no recursion happens). -/
theorem clusterStep_pruned (d : IfcObject → List IfcObject) (reg : Nat → Option String)
    (I : Finset Nat) (recurse : Option (IfcObject → Option (List DotStatement)))
    (o : IfcObject) (hne : ¬ I = ∅) (ho : o.oid ∉ I) :
    clusterStep d reg I recurse o = some [] := by
  unfold clusterStep
  by_cases hv : isVirtual o
  · simp [hv]
  · simp [hv, hne, ho]

theorem clusterGo_pruned (d : IfcObject → List IfcObject) (reg : Nat → Option String)
    (I : Finset Nat) (fuel : Nat) (o : IfcObject) (hne : ¬ I = ∅) (ho : o.oid ∉ I) :
    clusterGo d reg I fuel o = some [] := by
  cases fuel with
  | zero => exact clusterStep_pruned d reg I none o hne ho
  | succ fuel => exact clusterStep_pruned d reg I _ o hne ho

/-! ### Statement shape lemmas -/

theorem headerStmts_shape (s : DotStatement) (h : s ∈ headerStmts) :
    ∃ t, s = DotStatement.headerLine t := by
  rcases List.mem_cons.mp h with rfl | h'
  · exact ⟨_, rfl⟩
  · rcases List.mem_singleton.mp h' with rfl
    exact ⟨_, rfl⟩

theorem nodePhase_stmts_shape (objs : List IfcObject) (I : Finset Nat) (s : DotStatement)
    (h : s ∈ (nodePhase objs I).stmts) : ∃ k lab fill, s = DotStatement.node k lab fill := by
  unfold nodePhase at h
  rw [nodesGo_stmts_mem] at h
  rcases h with h | ⟨o, _, _, _, rfl⟩
  · cases h
  · exact ⟨_, _, _, rfl⟩

theorem edgePhase_stmts_shape (m : Model) (I : Finset Nat) (s : DotStatement)
    (h : s ∈ (edgePhase m I).stmts) :
    ∃ a b la lb w sty, s = DotStatement.edge a b la lb w sty := by
  unfold edgePhase at h
  rw [relsGo_stmts_mem] at h
  rcases h with h | ⟨r, _, relating, relateds, w, sty, _, b, _, la, lb, _, _, _, rfl⟩
  · cases h
  · exact ⟨_, _, _, _, _, _, rfl⟩

/-- Every node statement of the node phase prints a registered key. -/
theorem nodePhase_stmt_registered (m : Model) (I : Finset Nat) (k : Nat) (lab fill : String)
    (h : DotStatement.node k lab fill ∈ (nodePhase m.objects I).stmts) :
    (registry m k).isSome = true := by
  unfold nodePhase at h
  rw [nodesGo_stmts_mem] at h
  rcases h with h | ⟨o, ho, hv, _, heq⟩
  · cases h
  · injection heq with h1 h2 h3
    subst h1
    unfold registry nodePhase
    rw [nodesGo_reg_isSome]
    exact Or.inr ⟨o, ho, hv, rfl⟩

/-- Every edge statement of the edge phase prints two registered labels. -/
theorem edgePhase_stmt_registered (m : Model) (I : Finset Nat) (a b : Nat)
    (la lb w sty : String)
    (h : DotStatement.edge a b la lb w sty ∈ (edgePhase m I).stmts) :
    registry m a = some la ∧ registry m b = some lb := by
  unfold edgePhase at h
  rw [relsGo_stmts_mem] at h
  rcases h with h | ⟨r, _, relating, relateds, w', sty', _, bo, _, la', lb', hra, hrb, _, heq⟩
  · cases h
  · injection heq with h1 h2 h3 h4 h5 h6
    subst h1; subst h2; subst h3; subst h4
    exact ⟨hra, hrb⟩

/-! ### Output decomposition helpers -/

theorem registry_isSome_iff (m : Model) (k : Nat) :
    (registry m k).isSome = true ↔ ∃ o ∈ m.objects, isVirtual o = false ∧ o.oid = k := by
  unfold registry nodePhase
  rw [nodesGo_reg_isSome]
  simp [initNodeState]

theorem clusterStmtOk_not_node (reg : Nat → Option String) (k : Nat) (lab fill : String) :
    ¬ clusterStmtOk reg (DotStatement.node k lab fill) := fun h => h

theorem clusterStmtOk_not_edge (reg : Nat → Option String) (a b : Nat)
    (la lb w sty : String) :
    ¬ clusterStmtOk reg (DotStatement.edge a b la lb w sty) := fun h => h

theorem out_node_mem (m : Model) (I : Finset Nat) (cs : List DotStatement)
    (hcs : sitesGo m.decomp (registry m) I m.recLimit m.sites = some cs)
    (k : Nat) (lab fill : String) :
    (DotStatement.node k lab fill ∈
        headerStmts ++ (nodePhase m.objects I).stmts ++ (edgePhase m I).stmts ++
          cs ++ [DotStatement.closeBrace] ↔
      DotStatement.node k lab fill ∈ (nodePhase m.objects I).stmts) := by
  simp only [List.mem_append, List.mem_singleton]
  constructor
  · rintro ((((h | h) | h) | h) | h)
    · obtain ⟨t, ht⟩ := headerStmts_shape _ h
      cases ht
    · exact h
    · obtain ⟨a, b, la, lb, w, sty, ht⟩ := edgePhase_stmts_shape m I _ h
      cases ht
    · exact absurd (sitesGo_ok m.decomp (registry m) I m.recLimit m.sites cs hcs _ h)
        (clusterStmtOk_not_node _ k lab fill)
    · cases h
  · intro h
    exact Or.inl (Or.inl (Or.inl (Or.inr h)))

theorem out_edge_mem (m : Model) (I : Finset Nat) (cs : List DotStatement)
    (hcs : sitesGo m.decomp (registry m) I m.recLimit m.sites = some cs)
    (a b : Nat) (la lb w sty : String) :
    (DotStatement.edge a b la lb w sty ∈
        headerStmts ++ (nodePhase m.objects I).stmts ++ (edgePhase m I).stmts ++
          cs ++ [DotStatement.closeBrace] ↔
      DotStatement.edge a b la lb w sty ∈ (edgePhase m I).stmts) := by
  simp only [List.mem_append, List.mem_singleton]
  constructor
  · rintro ((((h | h) | h) | h) | h)
    · obtain ⟨t, ht⟩ := headerStmts_shape _ h
      cases ht
    · obtain ⟨k, lab, fill, ht⟩ := nodePhase_stmts_shape m.objects I _ h
      cases ht
    · exact h
    · exact absurd (sitesGo_ok m.decomp (registry m) I m.recLimit m.sites cs hcs _ h)
        (clusterStmtOk_not_edge _ a b la lb w sty)
    · cases h
  · intro h
    exact Or.inl (Or.inl (Or.inr h))

/-! ### Claim theorems -/

/-- C1: for an edge candidate whose two endpoints both exist in the node
registry, the interest filter behaves exactly as specified: empty interest →
edge emitted, next-interest untouched; neither endpoint in interest → edge
dropped, next-interest untouched; exactly one endpoint in interest → edge
dropped and the other endpoint added to next-interest; both in interest →
edge emitted, next-interest untouched. -/
theorem claim_C1 (reg : Nat → Option String) (I : Finset Nat)
    (relating related : IfcObject) (w sty : String) (st : EdgeState)
    (la lb : String) (hla : reg relating.oid = some la) (hlb : reg related.oid = some lb) :
    (I = ∅ →
      processPair reg I relating related w sty st =
        { stmts := st.stmts ++ [DotStatement.edge relating.oid related.oid la lb w sty],
          newInterest := st.newInterest }) ∧
    (¬ I = ∅ → relating.oid ∉ I → related.oid ∉ I →
      processPair reg I relating related w sty st = st) ∧
    (relating.oid ∈ I → related.oid ∉ I →
      processPair reg I relating related w sty st =
        { stmts := st.stmts, newInterest := insert related.oid st.newInterest }) ∧
    (related.oid ∈ I → relating.oid ∉ I →
      processPair reg I relating related w sty st =
        { stmts := st.stmts, newInterest := insert relating.oid st.newInterest }) ∧
    (relating.oid ∈ I → related.oid ∈ I →
      processPair reg I relating related w sty st =
        { stmts := st.stmts ++ [DotStatement.edge relating.oid related.oid la lb w sty],
          newInterest := st.newInterest }) := by
  unfold processPair
  rw [hla, hlb]
  refine ⟨?_, ?_, ?_, ?_, ?_⟩
  · intro hI
    simp [hI]
  · intro hne ha hb
    simp [hne, ha, hb]
  · intro ha hb
    have hne : ¬ I = ∅ := by
      intro h
      rw [h] at ha
      exact absurd ha (Finset.not_mem_empty _)
    simp [hne, ha, hb]
  · intro hb ha
    have hne : ¬ I = ∅ := by
      intro h
      rw [h] at hb
      exact absurd hb (Finset.not_mem_empty _)
    simp [hne, ha, hb]
  · intro ha hb
    by_cases hne : ¬ I = ∅ <;> simp [hne, ha, hb]

/-- Witness for C1 at a concrete registry, interest set and edge. -/
theorem claim_C1_witness :
    processPair (fun k => if k = 1 then some "la" else if k = 2 then some "lb" else none)
      {1} ⟨1, "TypeA", []⟩ ⟨2, "TypeB", []⟩ "9" "solid" ⟨[], {1}⟩ =
      { stmts := [], newInterest := insert 2 {1} } :=
  (claim_C1 (fun k => if k = 1 then some "la" else if k = 2 then some "lb" else none)
      {1} ⟨1, "TypeA", []⟩ ⟨2, "TypeB", []⟩ "9" "solid" ⟨[], {1}⟩ "la" "lb"
      rfl rfl).2.2.1 (by decide) (by decide)

/-- C2: the next-interest set returned by a successful `write_dot` call is a
superset of the caller's interest set (the embedding threads the input set
unchanged and only ever inserts into the copy it returns). -/
theorem claim_C2 (m : Model) (I : Finset Nat) (out : List DotStatement × Finset Nat)
    (hout : write_dot m I = some out) : I ⊆ out.2 := by
  rw [write_dot_some_iff] at hout
  obtain ⟨cs, _, rfl⟩ := hout
  exact next_interest_supset m I

def objA : IfcObject := ⟨1, "TypeA", ["TypeA"]⟩
def objB : IfcObject := ⟨2, "TypeB", ["TypeB"]⟩

/-- A two-node model with one Aggregates relationship 1 → [2]. -/
def mAB : Model :=
  { objects := [objA, objB]
    rels := [IfcRelationship.aggregates objA [objB]]
    sites := []
    decomp := fun _ => []
    recLimit := 1 }

/-- Witness for C2 on the concrete model `mAB` with interest `{1}`. -/
theorem claim_C2_witness :
    ({1} : Finset Nat) ⊆
      (([DotStatement.headerLine "strict graph G \x7b",
         DotStatement.headerLine "graph [overlap=false,splines=true,rankdir=LR];",
         DotStatement.node 1 "#1=TypeA" "#ff9999",
         DotStatement.closeBrace], ({2, 1} : Finset Nat)) :
        List DotStatement × Finset Nat).2 :=
  claim_C2 mAB {1} _ (by decide)

/-- The ordered rule list of §4.1, written from the spec: category A =
Group, B = SpatialElement, C = ElementAssembly, D = OpeningElement,
E = Door or Window, F = general Element, G = StructuralItem, evaluated to
the first match with default category H. -/
def classifyRules : List ((IfcObject → Bool) × String) :=
  [(fun o => o.isA "IfcGroup", "#ff99ff"),
   (fun o => o.isA "IfcSpatialElement", "#ff99cc"),
   (fun o => o.isA "IfcElementAssembly", "#ccff99"),
   (fun o => o.isA "IfcOpeningElement", "#cc99ff"),
   (fun o => o.isA "IfcDoor" || o.isA "IfcWindow", "#99ccff"),
   (fun o => o.isA "IfcElement", "#9999ff"),
   (fun o => o.isA "IfcStructuralItem", "#99ff99")]

/-- First-match evaluation of an ordered rule list, with a default. -/
def firstMatch (rules : List ((IfcObject → Bool) × String)) (dflt : String)
    (o : IfcObject) : String :=
  match rules with
  | [] => dflt
  | (p, c) :: rest => if p o then c else firstMatch rest dflt o

/-- C5: the entity classifier is a total function equal to the first-match
evaluation of the spec's ordered rule chain (Group, SpatialElement,
ElementAssembly, OpeningElement, Door-or-Window, Element, StructuralItem,
default), and a node matching the Door or Window category is never given
the general Element category. -/
theorem claim_C5 :
    (∀ o, fillColor o = firstMatch classifyRules "#ff9999" o) ∧
    (∀ o, (o.isA "IfcDoor" = true ∨ o.isA "IfcWindow" = true) →
      fillColor o ≠ "#9999ff") := by
  constructor
  · intro o
    rfl
  · intro o h
    unfold fillColor
    have hdw : (o.isA "IfcDoor" || o.isA "IfcWindow") = true := by
      rcases h with h | h <;> simp [h]
    simp only [hdw]
    split_ifs <;> decide

/-- Witness for C5 at a concrete door object. -/
theorem claim_C5_witness :
    fillColor ⟨7, "IfcDoor", ["IfcDoor", "IfcElement", "IfcObject"]⟩ ≠ "#9999ff" :=
  claim_C5.2 ⟨7, "IfcDoor", ["IfcDoor", "IfcElement", "IfcObject"]⟩ (Or.inl (by decide))

/-- The §4.2 decomposition table, written from the spec's words: for each of
the nine recognised kinds the relating endpoint, the related endpoint
sequence, the weight ("9" = high, "1" = normal) and the style; not
applicable for any other kind. -/
def decomposeSpec : IfcRelationship → Option (IfcObject × List IfcObject × String × String)
  | .aggregates whole parts => some (whole, parts, "9", "solid")
  | .nests parent children => some (parent, children, "9", "solid")
  | .assignsToGroup grp members => some (grp, members, "1", "solid")
  | .connectsElements el other => some (el, [other], "9", "dashed")
  | .connectsStructuralMember member conn => some (member, [conn], "1", "solid")
  | .containedInSpatialStructure structure1 els => some (structure1, els, "1", "solid")
  | .fillsElement opening filler => some (opening, [filler], "9", "solid")
  | .voidsElement el opening => some (el, [opening], "9", "solid")
  | .spaceBoundary space el => some (space, [el], "9", "dotted")
  | .other => none

/-- C6: the relationship decomposer agrees with the spec's table on every
relationship (including the defaulted weights and styles), and a
relationship of an unrecognised kind contributes zero edge candidates: the
relationship loop leaves its state unchanged on it. -/
theorem claim_C6 :
    (∀ r, decompose r = decomposeSpec r) ∧
    (∀ (reg : Nat → Option String) (I : Finset Nat) (st : EdgeState),
      processRel reg I st IfcRelationship.other = st) := by
  constructor
  · intro r
    cases r <;> rfl
  · intro reg I st
    rfl

/-- C9: a cluster root whose id is missing from a non-empty interest set is
a complete no-op — `cluster` emits nothing even with zero recursion fuel
(hence does not recurse) — and the cluster phase never modifies
next-interest: the set returned by a successful `write_dot` is exactly the
edge phase's new_interest, whatever the cluster phase emitted. -/
theorem claim_C9 (d : IfcObject → List IfcObject) (reg : Nat → Option String)
    (I : Finset Nat) (fuel : Nat) (root : IfcObject) (m : Model)
    (out : List DotStatement × Finset Nat)
    (hne : ¬ I = ∅) (hroot : root.oid ∉ I) (hout : write_dot m I = some out) :
    clusterGo d reg I fuel root = some [] ∧ out.2 = next_interest m I := by
  constructor
  · exact clusterGo_pruned d reg I fuel root hne hroot
  · rw [write_dot_some_iff] at hout
    obtain ⟨cs, _, rfl⟩ := hout
    rfl

/-- Witness for C9: a pruned root with zero fuel on the model `mAB`. -/
theorem claim_C9_witness :
    clusterGo (fun _ => []) (fun _ => none) {1} 0 ⟨7, "IfcSite", ["IfcSite"]⟩ = some [] ∧
      (([DotStatement.headerLine "strict graph G \x7b",
         DotStatement.headerLine "graph [overlap=false,splines=true,rankdir=LR];",
         DotStatement.node 1 "#1=TypeA" "#ff9999",
         DotStatement.closeBrace], ({2, 1} : Finset Nat)) :
        List DotStatement × Finset Nat).2 = next_interest mAB {1} :=
  claim_C9 (fun _ => []) (fun _ => none) {1} 0 ⟨7, "IfcSite", ["IfcSite"]⟩ mAB _
    (by decide) (by decide) (by decide)

/-- C10: any id in the returned next-interest that was not in the input
interest set is a registry key, i.e. the id of a non-virtual object of the
enumerated IfcObject category. -/
theorem claim_C10 (m : Model) (I : Finset Nat) (out : List DotStatement × Finset Nat)
    (x : Nat) (hout : write_dot m I = some out) (hx : x ∈ out.2) (hxI : x ∉ I) :
    (registry m x).isSome = true ∧ ∃ o ∈ m.objects, isVirtual o = false ∧ o.oid = x := by
  rw [write_dot_some_iff] at hout
  obtain ⟨cs, _, rfl⟩ := hout
  replace hx : x ∈ next_interest m I := hx
  rw [next_interest_mem] at hx
  rcases hx with h | ⟨hne, a, b, hcand, hcase⟩
  · exact absurd h hxI
  · have hreg : (registry m x).isSome = true := by
      rcases hcase with ⟨heq, _⟩ | ⟨heq, _⟩
      · rw [heq]
        exact hcand.2.1
      · rw [heq]
        exact hcand.1
    exact ⟨hreg, (registry_isSome_iff m x).mp hreg⟩

/-- Witness for C10: id 2 entered the frontier of `mAB` at interest `{1}`. -/
theorem claim_C10_witness :
    (registry mAB 2).isSome = true ∧ ∃ o ∈ mAB.objects, isVirtual o = false ∧ o.oid = 2 :=
  claim_C10 mAB {1}
    ([DotStatement.headerLine "strict graph G \x7b",
      DotStatement.headerLine "graph [overlap=false,splines=true,rankdir=LR];",
      DotStatement.node 1 "#1=TypeA" "#ff9999",
      DotStatement.closeBrace], ({2, 1} : Finset Nat)) 2
    (by decide) (by decide) (by decide)

/-- C8: a non-virtual IfcObject whose id is missing from a non-empty
interest set is still registered in the registry under its id, but no
styled node statement for that id is emitted. -/
theorem claim_C8 (m : Model) (I : Finset Nat) (o : IfcObject)
    (out : List DotStatement × Finset Nat)
    (hne : ¬ I = ∅) (ho : o ∈ m.objects) (hv : isVirtual o = false) (hni : o.oid ∉ I)
    (hout : write_dot m I = some out) :
    (registry m o.oid).isSome = true ∧
      ∀ lab fill, DotStatement.node o.oid lab fill ∉ out.1 := by
  constructor
  · rw [registry_isSome_iff]
    exact ⟨o, ho, hv, rfl⟩
  · rw [write_dot_some_iff] at hout
    obtain ⟨cs, hcs, rfl⟩ := hout
    intro lab fill hmem
    rw [out_node_mem m I cs hcs] at hmem
    unfold nodePhase at hmem
    rw [nodesGo_stmts_mem] at hmem
    rcases hmem with h | ⟨o', _, _, hIo', heq⟩
    · cases h
    · injection heq with h1 h2 h3
      rcases hIo' with h | h
      · exact hne h
      · rw [← h1] at h
        exact hni h

/-- Witness for C8: node 2 of `mAB` at interest `{1}` is registered but not
emitted. -/
theorem claim_C8_witness :
    (registry mAB 2).isSome = true ∧
      ∀ lab fill, DotStatement.node 2 lab fill ∉
        (([DotStatement.headerLine "strict graph G \x7b",
           DotStatement.headerLine "graph [overlap=false,splines=true,rankdir=LR];",
           DotStatement.node 1 "#1=TypeA" "#ff9999",
           DotStatement.closeBrace], ({2, 1} : Finset Nat)) :
          List DotStatement × Finset Nat).1 :=
  claim_C8 mAB {1} objB _ (by decide) (by decide) (by decide) (by decide) (by decide)

/-- Any registry key mentioned by any statement of a successful call's
output is present in the registry. -/
theorem out_stmt_mentions_registered (m : Model) (I : Finset Nat) (cs : List DotStatement)
    (hcs : sitesGo m.decomp (registry m) I m.recLimit m.sites = some cs)
    (s : DotStatement)
    (hs : s ∈ headerStmts ++ (nodePhase m.objects I).stmts ++ (edgePhase m I).stmts ++
      cs ++ [DotStatement.closeBrace])
    (k : Nat) (hk : s.mentions k = true) : (registry m k).isSome = true := by
  simp only [List.mem_append, List.mem_singleton] at hs
  rcases hs with (((h | h) | h) | h) | h
  · obtain ⟨t, ht⟩ := headerStmts_shape _ h
    subst ht
    exact Bool.noConfusion hk
  · obtain ⟨k', lab, fill, ht⟩ := nodePhase_stmts_shape m.objects I _ h
    subst ht
    have hkk : k' = k := of_decide_eq_true hk
    subst hkk
    exact nodePhase_stmt_registered m I k' lab fill h
  · obtain ⟨a, b, la, lb, w, sty, ht⟩ := edgePhase_stmts_shape m I _ h
    subst ht
    obtain ⟨hra, hrb⟩ := edgePhase_stmt_registered m I a b la lb w sty h
    rcases Bool.or_eq_true_iff.mp hk with h' | h'
    · have : a = k := of_decide_eq_true h'
      subst this
      rw [hra]
      rfl
    · have : b = k := of_decide_eq_true h'
      subst this
      rw [hrb]
      rfl
  · have hok := sitesGo_ok m.decomp (registry m) I m.recLimit m.sites cs hcs s h
    cases s with
    | headerLine t => exact Bool.noConfusion hk
    | node i lab fill => exact absurd hok (clusterStmtOk_not_node _ i lab fill)
    | edge a b la lb w sty => exact absurd hok (clusterStmtOk_not_edge _ a b la lb w sty)
    | subgraphOpen i =>
      have : i = k := of_decide_eq_true hk
      subst this
      exact hok
    | clusterAttrLine => exact Bool.noConfusion hk
    | clusterNode i lab =>
      have : i = k := of_decide_eq_true hk
      subst this
      exact hok
    | closeBrace => exact Bool.noConfusion hk
  · subst h
    exact Bool.noConfusion hk

/-- C4: a node of the virtual type (whose id is not reused by any
non-virtual object) gets no registry entry, and its id appears in no
emitted node, edge or cluster statement, for every interest set. -/
theorem claim_C4 (m : Model) (I : Finset Nat) (v : IfcObject)
    (out : List DotStatement × Finset Nat)
    (hv : v.isA "IfcVirtualElement" = true) (hvm : v ∈ m.objects)
    (hid : ∀ o ∈ m.objects, o.oid = v.oid → isVirtual o = true)
    (hout : write_dot m I = some out) :
    registry m v.oid = none ∧ ∀ s ∈ out.1, s.mentions v.oid = false := by
  have hnone : registry m v.oid = none := by
    cases hreg : registry m v.oid with
    | none => rfl
    | some l =>
      exfalso
      have hsome : (registry m v.oid).isSome = true := by rw [hreg]; rfl
      obtain ⟨o, ho, honv, hoid⟩ := (registry_isSome_iff m _).mp hsome
      rw [hid o ho hoid] at honv
      cases honv
  refine ⟨hnone, ?_⟩
  rw [write_dot_some_iff] at hout
  obtain ⟨cs, hcs, rfl⟩ := hout
  intro s hs
  by_contra hment
  rw [Bool.not_eq_false] at hment
  have := out_stmt_mentions_registered m I cs hcs s hs v.oid hment
  rw [hnone] at this
  cases this

def objV : IfcObject := ⟨3, "IfcVirtualElement", ["IfcVirtualElement", "IfcElement", "IfcObject"]⟩

/-- A model containing a virtual element related to a normal node. -/
def mV : Model :=
  { objects := [objA, objV]
    rels := [IfcRelationship.aggregates objA [objV]]
    sites := []
    decomp := fun _ => []
    recLimit := 1 }

/-- Witness for C4 on the model `mV` with empty interest. -/
theorem claim_C4_witness :
    registry mV 3 = none ∧
      ∀ s ∈ (([DotStatement.headerLine "strict graph G \x7b",
               DotStatement.headerLine "graph [overlap=false,splines=true,rankdir=LR];",
               DotStatement.node 1 "#1=TypeA" "#ff9999",
               DotStatement.closeBrace], (∅ : Finset Nat)) :
              List DotStatement × Finset Nat).1, s.mentions 3 = false :=
  claim_C4 mV ∅ objV _ (by decide) (by decide) (by decide) (by decide)

/-- C7 (amended): every node printed by any statement of a successful call
already exists in the registry, and the edge loop silently skips a pair
with an unregistered endpoint (no statement, no failure); cluster emission,
however, fails on an unregistered reference (see the counterexample)
instead of skipping it. -/
theorem claim_C7 (m : Model) (I : Finset Nat) (out : List DotStatement × Finset Nat)
    (hout : write_dot m I = some out) :
    (∀ s ∈ out.1, ∀ k, s.mentions k = true → (registry m k).isSome = true) ∧
    (∀ (reg : Nat → Option String) (relating related : IfcObject) (w sty : String)
        (st : EdgeState), reg relating.oid = none ∨ reg related.oid = none →
      processPair reg I relating related w sty st = st) := by
  constructor
  · rw [write_dot_some_iff] at hout
    obtain ⟨cs, hcs, rfl⟩ := hout
    intro s hs k hk
    exact out_stmt_mentions_registered m I cs hcs s hs k hk
  · intro reg relating related w sty st h
    unfold processPair
    rcases h with h | h
    · rw [h]
    · rw [h]
      cases reg relating.oid <;> rfl

/-- Witness for C7 (amended) on the model `mAB` with interest `{1}`. -/
theorem claim_C7_witness :
    (∀ s ∈ (([DotStatement.headerLine "strict graph G \x7b",
              DotStatement.headerLine "graph [overlap=false,splines=true,rankdir=LR];",
              DotStatement.node 1 "#1=TypeA" "#ff9999",
              DotStatement.closeBrace], ({2, 1} : Finset Nat)) :
             List DotStatement × Finset Nat).1,
      ∀ k, s.mentions k = true → (registry mAB k).isSome = true) ∧
    (∀ (reg : Nat → Option String) (relating related : IfcObject) (w sty : String)
        (st : EdgeState), reg relating.oid = none ∨ reg related.oid = none →
      processPair reg {1} relating related w sty st = st) :=
  claim_C7 mAB {1} _ (by decide)

def objSite : IfcObject := ⟨10, "IfcSite", ["IfcSite", "IfcSpatialElement", "IfcObject"]⟩
def objWall : IfcObject := ⟨11, "IfcWall", ["IfcWall", "IfcElement", "IfcObject"]⟩
def objGhost : IfcObject := ⟨99, "IfcTypeObject", ["IfcTypeObject"]⟩

/-- A model whose site decomposes into a registered wall and an entity that
is not among the enumerated IfcObjects (hence not in the registry). -/
def mClu : Model :=
  { objects := [objSite, objWall]
    rels := []
    sites := [objSite]
    decomp := fun o => if o.oid = 10 then [objWall, objGhost] else []
    recLimit := 5 }

/-- C7 counterexample: the claim promises that emission never fails on an
unregistered reference, but `cluster`'s unguarded registry access fails
(KeyError, modelled as `none`) on the unregistered decomposition child 99. -/
theorem claim_C7_counterexample :
    registry mClu 99 = none ∧ write_dot mClu ∅ = none := by
  constructor
  · decide
  · decide

/-! ### C3: iterate-until-fixpoint equals the reachable restriction -/

theorem nodePhase_node_mem (objs : List IfcObject) (I : Finset Nat)
    (k : Nat) (lab fill : String) :
    (DotStatement.node k lab fill ∈ (nodePhase objs I).stmts ↔
      ∃ o ∈ objs, isVirtual o = false ∧ (I = ∅ ∨ o.oid ∈ I) ∧
        o.oid = k ∧ dotLabel o = lab ∧ fillColor o = fill) := by
  unfold nodePhase
  rw [nodesGo_stmts_mem]
  constructor
  · rintro (h | ⟨o, ho, hnv, hc, heq⟩)
    · cases h
    · injection heq with e1 e2 e3
      exact ⟨o, ho, hnv, hc, e1.symm, e2.symm, e3.symm⟩
  · rintro ⟨o, ho, hnv, hc, e1, e2, e3⟩
    refine Or.inr ⟨o, ho, hnv, hc, ?_⟩
    rw [e1, e2, e3]

theorem edgePhase_edge_mem (m : Model) (I : Finset Nat) (a b : Nat)
    (la lb w sty : String) :
    (DotStatement.edge a b la lb w sty ∈ (edgePhase m I).stmts ↔
      (DotStatement.edge a b la lb w sty ∈ (edgePhase m ∅).stmts ∧
        (I = ∅ ∨ (a ∈ I ∧ b ∈ I)))) := by
  unfold edgePhase
  rw [relsGo_stmts_mem, relsGo_stmts_mem]
  constructor
  · rintro (h | ⟨r, hr, relating, relateds, w', sty', hd, bo, hbo, la', lb', hla, hlb, hcond, heq⟩)
    · cases h
    · injection heq with e1 e2 e3 e4 e5 e6
      subst e1; subst e2; subst e3; subst e4; subst e5; subst e6
      exact ⟨Or.inr ⟨r, hr, relating, relateds, _, _, hd, bo, hbo, _, _,
        hla, hlb, Or.inl rfl, rfl⟩, hcond⟩
  · rintro ⟨h, hcond⟩
    rcases h with h | ⟨r, hr, relating, relateds, w', sty', hd, bo, hbo, la', lb', hla, hlb, _, heq⟩
    · cases h
    · injection heq with e1 e2 e3 e4 e5 e6
      subst e1; subst e2; subst e3; subst e4; subst e5; subst e6
      exact Or.inr ⟨r, hr, relating, relateds, _, _, hd, bo, hbo, _, _,
        hla, hlb, hcond, rfl⟩

theorem reaches_src_nonempty (m : Model) (src : Finset Nat) (x : Nat)
    (h : Reaches m src x) : src.Nonempty := by
  induction h with
  | base x hx _ => exact ⟨x, hx⟩
  | fwd a b _ _ ih => exact ih
  | bwd a b _ _ ih => exact ih

/-- C3 (amended: the initial interest set must be non-empty): iterating
`write_dot` with `interest := previous next-interest` until the set stops
growing reaches a fixpoint, and the final call's emitted node and edge
statements are exactly the empty-interest call's statements restricted to
the weakly-connected components of the candidate edge graph touched by the
original interest set. -/
theorem claim_C3 (m : Model) (I0 : Finset Nat)
    (outJ out0 : List DotStatement × Finset Nat) (hne : I0.Nonempty)
    (hJ : write_dot m (expandInterest m I0 (registryKeys m).card) = some outJ)
    (h0 : write_dot m ∅ = some out0) :
    next_interest m (expandInterest m I0 (registryKeys m).card) =
      expandInterest m I0 (registryKeys m).card ∧
    (∀ k lab fill, DotStatement.node k lab fill ∈ outJ.1 ↔
      (DotStatement.node k lab fill ∈ out0.1 ∧ Reaches m I0 k)) ∧
    (∀ a b la lb w sty, DotStatement.edge a b la lb w sty ∈ outJ.1 ↔
      (DotStatement.edge a b la lb w sty ∈ out0.1 ∧
        Reaches m I0 a ∧ Reaches m I0 b)) := by
  have hfix : next_interest m (expandInterest m I0 (registryKeys m).card) =
      expandInterest m I0 (registryKeys m).card :=
    expandInterest_fix m (registryKeys m).card I0 (Finset.card_le_card Finset.sdiff_subset)
  have hI0J : I0 ⊆ expandInterest m I0 (registryKeys m).card :=
    expandInterest_supset m (registryKeys m).card I0
  have hJne : ¬ expandInterest m I0 (registryKeys m).card = ∅ := by
    obtain ⟨x, hx⟩ := hne
    exact Finset.ne_empty_of_mem (hI0J hx)
  have hJmem : ∀ x, x ∈ expandInterest m I0 (registryKeys m).card ↔
      (x ∈ I0 ∨ Reaches m I0 x) := by
    intro x
    constructor
    · intro hx
      exact expandInterest_closure m I0 (registryKeys m).card I0 (fun y hy => Or.inl hy) x hx
    · rintro (hx | hx)
      · exact hI0J hx
      · exact reaches_mem_fixpoint m I0 _ hfix hI0J hJne x hx
  have hreach_of_mem : ∀ x, x ∈ expandInterest m I0 (registryKeys m).card →
      (registry m x).isSome = true → Reaches m I0 x := by
    intro x hx hreg
    rcases (hJmem x).mp hx with h | h
    · exact Reaches.base x h hreg
    · exact h
  rw [write_dot_some_iff] at hJ h0
  obtain ⟨csJ, hcsJ, rfl⟩ := hJ
  obtain ⟨cs0, hcs0, rfl⟩ := h0
  refine ⟨hfix, ?_, ?_⟩
  · intro k lab fill
    rw [show ((headerStmts ++ (nodePhase m.objects (expandInterest m I0 (registryKeys m).card)).stmts ++
        (edgePhase m (expandInterest m I0 (registryKeys m).card)).stmts ++ csJ ++
        [DotStatement.closeBrace], next_interest m (expandInterest m I0 (registryKeys m).card)) :
        List DotStatement × Finset Nat).1 = _ from rfl]
    rw [out_node_mem m _ csJ hcsJ, out_node_mem m ∅ cs0 hcs0]
    rw [nodePhase_node_mem, nodePhase_node_mem]
    constructor
    · rintro ⟨o, ho, hnv, hc, hoid, hlab, hfill⟩
      have hkJ : o.oid ∈ expandInterest m I0 (registryKeys m).card := by
        rcases hc with hc | hc
        · exact absurd hc hJne
        · exact hc
      have hregk : (registry m o.oid).isSome = true :=
        (registry_isSome_iff m o.oid).mpr ⟨o, ho, hnv, rfl⟩
      have hreach : Reaches m I0 o.oid := hreach_of_mem o.oid hkJ hregk
      rw [hoid] at hreach
      exact ⟨⟨o, ho, hnv, Or.inl rfl, hoid, hlab, hfill⟩, hreach⟩
    · rintro ⟨⟨o, ho, hnv, _, hoid, hlab, hfill⟩, hreach⟩
      refine ⟨o, ho, hnv, Or.inr ?_, hoid, hlab, hfill⟩
      rw [hJmem]
      right
      rw [hoid]
      exact hreach
  · intro a b la lb w sty
    rw [out_edge_mem m _ csJ hcsJ, out_edge_mem m ∅ cs0 hcs0]
    rw [edgePhase_edge_mem m _ a b la lb w sty]
    constructor
    · rintro ⟨h0mem, hc⟩
      have hcJ : a ∈ expandInterest m I0 (registryKeys m).card ∧
          b ∈ expandInterest m I0 (registryKeys m).card := by
        rcases hc with hc | hc
        · exact absurd hc hJne
        · exact hc
      obtain ⟨hra, hrb⟩ := edgePhase_stmt_registered m ∅ a b la lb w sty h0mem
      have hrega : (registry m a).isSome = true := by rw [hra]; rfl
      have hregb : (registry m b).isSome = true := by rw [hrb]; rfl
      exact ⟨h0mem, hreach_of_mem a hcJ.1 hrega, hreach_of_mem b hcJ.2 hregb⟩
    · rintro ⟨h0mem, hrA, hrB⟩
      exact ⟨h0mem, Or.inr ⟨(hJmem a).mpr (Or.inr hrA), (hJmem b).mpr (Or.inr hrB)⟩⟩

/-- Witness for C3 on the model `mAB` starting from the interest set `{1}`:
the loop reaches the fixpoint `{2, 1}` and the final call's output is the
whole (fully connected) graph. -/
theorem claim_C3_witness :
    next_interest mAB (expandInterest mAB {1} (registryKeys mAB).card) =
      expandInterest mAB {1} (registryKeys mAB).card ∧
    (∀ k lab fill, DotStatement.node k lab fill ∈
        (([DotStatement.headerLine "strict graph G \x7b",
           DotStatement.headerLine "graph [overlap=false,splines=true,rankdir=LR];",
           DotStatement.node 1 "#1=TypeA" "#ff9999",
           DotStatement.node 2 "#2=TypeB" "#ff9999",
           DotStatement.edge 1 2 "#1=TypeA" "#2=TypeB" "9" "solid",
           DotStatement.closeBrace], ({2, 1} : Finset Nat)) :
          List DotStatement × Finset Nat).1 ↔
      (DotStatement.node k lab fill ∈
        (([DotStatement.headerLine "strict graph G \x7b",
           DotStatement.headerLine "graph [overlap=false,splines=true,rankdir=LR];",
           DotStatement.node 1 "#1=TypeA" "#ff9999",
           DotStatement.node 2 "#2=TypeB" "#ff9999",
           DotStatement.edge 1 2 "#1=TypeA" "#2=TypeB" "9" "solid",
           DotStatement.closeBrace], (∅ : Finset Nat)) :
          List DotStatement × Finset Nat).1 ∧ Reaches mAB {1} k)) ∧
    (∀ a b la lb w sty, DotStatement.edge a b la lb w sty ∈
        (([DotStatement.headerLine "strict graph G \x7b",
           DotStatement.headerLine "graph [overlap=false,splines=true,rankdir=LR];",
           DotStatement.node 1 "#1=TypeA" "#ff9999",
           DotStatement.node 2 "#2=TypeB" "#ff9999",
           DotStatement.edge 1 2 "#1=TypeA" "#2=TypeB" "9" "solid",
           DotStatement.closeBrace], ({2, 1} : Finset Nat)) :
          List DotStatement × Finset Nat).1 ↔
      (DotStatement.edge a b la lb w sty ∈
        (([DotStatement.headerLine "strict graph G \x7b",
           DotStatement.headerLine "graph [overlap=false,splines=true,rankdir=LR];",
           DotStatement.node 1 "#1=TypeA" "#ff9999",
           DotStatement.node 2 "#2=TypeB" "#ff9999",
           DotStatement.edge 1 2 "#1=TypeA" "#2=TypeB" "9" "solid",
           DotStatement.closeBrace], (∅ : Finset Nat)) :
          List DotStatement × Finset Nat).1 ∧
        Reaches mAB {1} a ∧ Reaches mAB {1} b)) :=
  claim_C3 mAB {1} _ _ ⟨1, by decide⟩ (by decide) (by decide)

/-- A one-node model with no relationships. -/
def mOne : Model :=
  { objects := [objA]
    rels := []
    sites := []
    decomp := fun _ => []
    recLimit := 1 }

/-- C3 counterexample at the empty initial interest set: the iteration stops
immediately at ∅, the final call emits node 1, yet nothing is weakly
reachable from the empty interest set, so the emitted set is not the
restriction the claim demands. -/
theorem claim_C3_counterexample :
    expandInterest mOne ∅ (registryKeys mOne).card = ∅ ∧
    write_dot mOne ∅ =
      some ([DotStatement.headerLine "strict graph G \x7b",
             DotStatement.headerLine "graph [overlap=false,splines=true,rankdir=LR];",
             DotStatement.node 1 "#1=TypeA" "#ff9999",
             DotStatement.closeBrace], (∅ : Finset Nat)) ∧
    DotStatement.node 1 "#1=TypeA" "#ff9999" ∈
      [DotStatement.headerLine "strict graph G \x7b",
       DotStatement.headerLine "graph [overlap=false,splines=true,rankdir=LR];",
       DotStatement.node 1 "#1=TypeA" "#ff9999",
       DotStatement.closeBrace] ∧
    ¬ Reaches mOne ∅ 1 := by
  refine ⟨by decide, by decide, by decide, ?_⟩
  intro h
  simpa using reaches_src_nonempty mOne ∅ 1 h

end IfcDot
